import Mathlib

/-
Verification of the agent communication and context management core
(src/agent_communication.py): the shared versioned context store
(SharedContextDB), the message hub (AgentCommunicationHub) and the
consistency manager (StoryConsistencyManager), shallowly embedded in Lean.

Python dictionaries are modelled as association lists over string keys
with a tagged value type; dictionary assignment replaces the value of an
existing key in place and appends new keys at the end, matching Python
insertion-order semantics.  Nondeterministic fields of the source
(md5/sha256 ids, wall-clock timestamps) and logging are omitted; they are
not observable by any claim.  Python operations that can raise TypeError
on ill-typed values (ordered comparison, addition) are modelled in the
Option monad.
-/

/-- Tagged value type for the dynamically typed values stored in Python
dictionaries by this module: the claims exercise strings and integers.
Python equality between values of different tags is False, matching
constructor mismatch here. -/
inductive Val : Type where
  | VStr : String → Val
  | VInt : Int → Val
deriving DecidableEq, Repr

/-- Association-list model of a Python dict with string keys. -/
abbrev Dict (α : Type) : Type := List (String × α)

/-- Lookup of a key, first entry wins (entries are unique for every dict
built through the modelled operations). -/
def Dict.lookup {α : Type} : Dict α → String → Option α
  | [], _ => none
  | (k, v) :: rest, key => if k = key then some v else Dict.lookup rest key

/-- Python `key in d`. -/
def Dict.containsKey {α : Type} (d : Dict α) (key : String) : Bool :=
  (d.lookup key).isSome

/-- Python `d.get(key, default)`. -/
def Dict.getD {α : Type} (d : Dict α) (key : String) (default : α) : α :=
  (d.lookup key).getD default

/-- Python `d[key] = v`: replace in place when the key exists, append
otherwise. -/
def Dict.insertD {α : Type} : Dict α → String → α → Dict α
  | [], key, v => [(key, v)]
  | (k, w) :: rest, key, v =>
    if k = key then (k, v) :: rest else (k, w) :: Dict.insertD rest key v

/-- Python `d.update(u)`: assign every entry of `u` in order. -/
def Dict.update {α : Type} (d : Dict α) (u : Dict α) : Dict α :=
  u.foldl (fun acc kv => acc.insertD kv.1 kv.2) d

/-- Removal of every entry carrying the given key. -/
def Dict.eraseKey {α : Type} : Dict α → String → Dict α
  | [], _ => []
  | (k, v) :: rest, key =>
    if k = key then Dict.eraseKey rest key
    else (k, v) :: Dict.eraseKey rest key

/-- A dict is well formed when its keys are pairwise distinct; every dict
reachable through the modelled operations is. -/
def Dict.NoDupKeys {α : Type} (d : Dict α) : Prop :=
  (d.map Prod.fst).Nodup

theorem Dict.lookup_insertD {α : Type} (d : Dict α) (k : String) (v : α)
    (key : String) :
    (d.insertD k v).lookup key = if k = key then some v else d.lookup key := by
  induction d with
  | nil => simp [Dict.insertD, Dict.lookup]
  | cons hd tl ih =>
    obtain ⟨k1, v1⟩ := hd
    by_cases h1 : k1 = k
    · subst h1
      by_cases h2 : k1 = key <;> simp [Dict.insertD, Dict.lookup, h2]
    · by_cases h2 : k1 = key
      · subst h2
        simp [Dict.insertD, Dict.lookup, h1, Ne.symm h1]
      · simp [Dict.insertD, Dict.lookup, h1, h2, ih]

theorem Dict.containsKey_insertD {α : Type} (d : Dict α) (k : String) (v : α)
    (key : String) :
    (d.insertD k v).containsKey key = (k = key || d.containsKey key) := by
  by_cases h : k = key <;>
    simp [Dict.containsKey, Dict.lookup_insertD, h]

theorem Dict.lookup_eq_none_of_not_mem {α : Type} (d : Dict α) (key : String)
    (h : key ∉ d.map Prod.fst) : d.lookup key = none := by
  induction d with
  | nil => rfl
  | cons hd tl ih =>
    obtain ⟨k1, v1⟩ := hd
    simp only [List.map_cons, List.mem_cons, not_or] at h
    simp [Dict.lookup, Ne.symm h.1, ih h.2]

theorem Dict.mem_of_lookup_eq_some {α : Type} {d : Dict α} {key : String}
    {v : α} (h : d.lookup key = some v) : key ∈ d.map Prod.fst := by
  induction d with
  | nil => simp [Dict.lookup] at h
  | cons hd tl ih =>
    obtain ⟨k1, v1⟩ := hd
    by_cases hk : k1 = key
    · simp [hk]
    · simp only [Dict.lookup, if_neg hk] at h
      simp [ih h]

theorem Dict.lookup_update {α : Type} (d u : Dict α) (key : String)
    (hu : u.NoDupKeys) :
    (d.update u).lookup key =
      match u.lookup key with
      | some v => some v
      | none => d.lookup key := by
  induction u generalizing d with
  | nil => simp [Dict.update, Dict.lookup]
  | cons hd tl ih =>
    obtain ⟨k1, v1⟩ := hd
    simp only [Dict.NoDupKeys, List.map_cons, List.nodup_cons] at hu
    by_cases h : k1 = key
    · subst h
      simp only [Dict.update, List.foldl_cons] at *
      rw [ih _ hu.2]
      rw [Dict.lookup_eq_none_of_not_mem tl k1 hu.1]
      simp [Dict.lookup, Dict.lookup_insertD]
    · simp only [Dict.update, List.foldl_cons] at *
      rw [ih _ hu.2]
      by_cases htl : (Dict.lookup tl key).isSome
      · obtain ⟨w, hw⟩ := Option.isSome_iff_exists.mp htl
        simp [Dict.lookup, hw, h]
      · rw [Option.not_isSome_iff_eq_none] at htl
        simp [Dict.lookup, htl, h, Dict.lookup_insertD, h]

theorem Dict.containsKey_update {α : Type} (d u : Dict α) (key : String) :
    (d.update u).containsKey key = (u.containsKey key || d.containsKey key) := by
  induction u generalizing d with
  | nil => simp [Dict.update, Dict.containsKey, Dict.lookup]
  | cons hd tl ih =>
    obtain ⟨k1, v1⟩ := hd
    simp only [Dict.update, List.foldl_cons] at *
    rw [ih]
    simp only [Dict.containsKey, Dict.lookup, Dict.lookup_insertD]
    by_cases h : k1 = key <;> simp [h]

/-- Keys are never lost by dictionary update: Python `d.update(u)` only
adds or overwrites entries. -/
theorem Dict.containsKey_update_of_containsKey {α : Type} (d u : Dict α)
    (key : String) (h : d.containsKey key = true) :
    (d.update u).containsKey key = true := by
  simp [Dict.containsKey_update, h]

theorem Dict.containsKey_iff_mem_keys {α : Type} (d : Dict α) (key : String) :
    d.containsKey key = true ↔ key ∈ d.map Prod.fst := by
  induction d with
  | nil => simp [Dict.containsKey, Dict.lookup]
  | cons hd tl ih =>
    obtain ⟨k1, v1⟩ := hd
    by_cases h : k1 = key
    · simp [Dict.containsKey, Dict.lookup, h]
    · have h2 : ¬key = k1 := fun hh => h hh.symm
      simp [Dict.containsKey, Dict.lookup, h, h2, ← ih]

theorem Dict.keys_insertD {α : Type} (d : Dict α) (k : String) (v : α) :
    (d.insertD k v).map Prod.fst =
      if d.containsKey k then d.map Prod.fst else d.map Prod.fst ++ [k] := by
  induction d with
  | nil => simp [Dict.insertD, Dict.containsKey, Dict.lookup]
  | cons hd tl ih =>
    obtain ⟨k1, v1⟩ := hd
    by_cases h : k1 = k
    · simp [Dict.insertD, h, Dict.containsKey, Dict.lookup]
    · simp only [Dict.insertD, if_neg h, List.map_cons, ih,
        Dict.containsKey, Dict.lookup, if_neg h]
      by_cases h2 : (Dict.lookup tl k).isSome <;> simp [h2]

theorem Dict.NoDupKeys_insertD {α : Type} (d : Dict α) (k : String) (v : α)
    (h : d.NoDupKeys) : (d.insertD k v).NoDupKeys := by
  unfold Dict.NoDupKeys at *
  rw [Dict.keys_insertD]
  by_cases hc : d.containsKey k
  · simpa [hc]
  · have hk : k ∉ d.map Prod.fst := by
      intro hmem
      exact hc ((Dict.containsKey_iff_mem_keys d k).mpr hmem)
    simp [hc, List.nodup_append, h, hk]

theorem Dict.NoDupKeys_update {α : Type} (d u : Dict α) (h : d.NoDupKeys) :
    (d.update u).NoDupKeys := by
  induction u generalizing d with
  | nil => exact h
  | cons hd tl ih =>
    exact ih (d.insertD hd.1 hd.2) (Dict.NoDupKeys_insertD d hd.1 hd.2 h)

/-- Structured diff between two context documents, mirroring the shape
built by `SharedContextDB._get_change_diff`: `added` holds keys present
in the new document only, `modified` holds keys present in both with
different values (recording old and new value), `removed` holds keys
present in the old document only. -/
structure Diff (α : Type) where
  added : Dict α
  modified : Dict (α × α)
  removed : Dict α
deriving DecidableEq, Repr

/-- Embedding of `SharedContextDB._get_change_diff(old_data, new_data)`:
one pass over the new document classifying keys as added or modified,
one pass over the old document collecting removed keys. -/
def getChangeDiff {α : Type} [DecidableEq α] (old_data new_data : Dict α) :
    Diff α :=
  ⟨new_data.filter (fun kv => !(old_data.containsKey kv.1)),
   new_data.filterMap (fun kv =>
     match old_data.lookup kv.1 with
     | none => none
     | some ov => if ov = kv.2 then none else some (kv.1, (ov, kv.2))),
   old_data.filter (fun kv => !(new_data.containsKey kv.1))⟩

/-- Modelled from the spec: the source records diffs but never replays
them; the spec invariant about consecutive versions speaks of applying
the recorded diff to the older document.  Applying a diff deletes every
removed key, writes the new value of every modified key, and inserts
every added key. -/
def applyDiff {α : Type} (d : Dict α) (df : Diff α) : Dict α :=
  let d1 := (df.removed.map Prod.fst).foldl Dict.eraseKey d
  let d2 := d1.update (df.modified.map (fun kv => (kv.1, kv.2.2)))
  d2.update df.added

theorem Dict.lookup_eraseKey {α : Type} (d : Dict α) (k0 key : String) :
    (d.eraseKey k0).lookup key = if k0 = key then none else d.lookup key := by
  induction d with
  | nil => simp [Dict.eraseKey, Dict.lookup]
  | cons hd tl ih =>
    obtain ⟨k1, v1⟩ := hd
    by_cases h1 : k1 = k0
    · subst h1
      by_cases h2 : k1 = key
      · subst h2
        simp [Dict.eraseKey, ih]
      · simp [Dict.eraseKey, Dict.lookup, h2, ih]
    · by_cases h2 : k1 = key
      · subst h2
        have h3 : ¬k0 = k1 := fun hh => h1 hh.symm
        simp [Dict.eraseKey, Dict.lookup, h1, h3]
      · simp [Dict.eraseKey, Dict.lookup, h1, h2, ih]

theorem Dict.lookup_foldl_eraseKey {α : Type} (ks : List String) (d : Dict α)
    (key : String) :
    (ks.foldl Dict.eraseKey d).lookup key =
      if key ∈ ks then none else d.lookup key := by
  induction ks generalizing d with
  | nil => simp
  | cons k0 tl ih =>
    simp only [List.foldl_cons, ih, List.mem_cons]
    by_cases h1 : key ∈ tl
    · simp [h1]
    · by_cases h2 : key = k0
      · simp [h1, h2, Dict.lookup_eraseKey]
      · have h3 : ¬k0 = key := fun hh => h2 hh.symm
        simp [h1, h2, Dict.lookup_eraseKey, h3]

theorem Dict.lookup_map_value {α β : Type} (d : Dict α) (f : α → β)
    (key : String) :
    Dict.lookup (d.map (fun kv => (kv.1, f kv.2))) key =
      (d.lookup key).map f := by
  induction d with
  | nil => simp [Dict.lookup]
  | cons hd tl ih =>
    obtain ⟨k1, v1⟩ := hd
    by_cases h : k1 = key <;> simp [Dict.lookup, h, ih]

theorem lookup_added {α : Type} [DecidableEq α] (old_data new_data : Dict α)
    (key : String) :
    (getChangeDiff old_data new_data).added.lookup key =
      if old_data.containsKey key then none else new_data.lookup key := by
  induction new_data with
  | nil => simp [getChangeDiff, Dict.lookup]
  | cons hd tl ih =>
    obtain ⟨k1, v1⟩ := hd
    simp only [getChangeDiff, List.filter_cons] at ih ⊢
    by_cases hc : old_data.containsKey k1
    · rw [if_neg (by simp [hc])]
      rw [ih]
      by_cases h : k1 = key
      · subst h
        simp [hc]
      · simp [Dict.lookup, h]
    · rw [if_pos (by simp [hc])]
      by_cases h : k1 = key
      · subst h
        simp [Dict.lookup, hc]
      · simp only [Dict.lookup, if_neg h]
        exact ih

theorem containsKey_added {α : Type} [DecidableEq α]
    (old_data new_data : Dict α) (key : String) :
    (getChangeDiff old_data new_data).added.containsKey key =
      (new_data.containsKey key && !(old_data.containsKey key)) := by
  cases hl : Dict.lookup old_data key <;>
    simp [Dict.containsKey, lookup_added, hl]

theorem lookup_removed {α : Type} [DecidableEq α]
    (old_data new_data : Dict α) (key : String) :
    (getChangeDiff old_data new_data).removed.lookup key =
      if new_data.containsKey key then none else old_data.lookup key := by
  induction old_data with
  | nil => simp [getChangeDiff, Dict.lookup]
  | cons hd tl ih =>
    obtain ⟨k1, v1⟩ := hd
    simp only [getChangeDiff, List.filter_cons] at ih ⊢
    by_cases hc : new_data.containsKey k1
    · rw [if_neg (by simp [hc])]
      rw [ih]
      by_cases h : k1 = key
      · subst h
        simp [hc]
      · simp [Dict.lookup, h]
    · rw [if_pos (by simp [hc])]
      by_cases h : k1 = key
      · subst h
        simp [Dict.lookup, hc]
      · simp only [Dict.lookup, if_neg h]
        exact ih

theorem containsKey_removed {α : Type} [DecidableEq α]
    (old_data new_data : Dict α) (key : String) :
    (getChangeDiff old_data new_data).removed.containsKey key =
      (old_data.containsKey key && !(new_data.containsKey key)) := by
  cases hl : Dict.lookup new_data key <;>
    simp [Dict.containsKey, lookup_removed, hl]

theorem keys_map_value {α β : Type} (d : Dict α) (f : α → β) :
    (d.map (fun kv => (kv.1, f kv.2))).map Prod.fst = d.map Prod.fst := by
  induction d with
  | nil => rfl
  | cons hd tl ih => simp [ih]

theorem keys_modified_sublist {α : Type} [DecidableEq α]
    (old_data new_data : Dict α) :
    ((getChangeDiff old_data new_data).modified.map Prod.fst).Sublist
      (new_data.map Prod.fst) := by
  induction new_data with
  | nil => simp [getChangeDiff]
  | cons hd tl ih =>
    obtain ⟨k1, v1⟩ := hd
    simp only [getChangeDiff, List.filterMap_cons] at ih ⊢
    cases hl : Dict.lookup old_data k1 with
    | none =>
      simp only [List.map_cons]
      exact ih.cons k1
    | some ov =>
      by_cases hov : ov = v1
      · simp only [hov, if_pos rfl, List.map_cons]
        exact ih.cons k1
      · simp only [if_neg hov, List.map_cons]
        exact ih.cons₂ k1

theorem NoDupKeys_modified {α : Type} [DecidableEq α]
    (old_data new_data : Dict α) (hn : new_data.NoDupKeys) :
    Dict.NoDupKeys ((getChangeDiff old_data new_data).modified.map
      (fun kv => (kv.1, kv.2.2))) := by
  unfold Dict.NoDupKeys at *
  rw [keys_map_value]
  exact hn.sublist (keys_modified_sublist old_data new_data)

theorem NoDupKeys_added {α : Type} [DecidableEq α]
    (old_data new_data : Dict α) (hn : new_data.NoDupKeys) :
    (getChangeDiff old_data new_data).added.NoDupKeys := by
  unfold Dict.NoDupKeys at *
  exact hn.sublist ((List.filter_sublist new_data).map Prod.fst)

theorem lookup_modified {α : Type} [DecidableEq α]
    (old_data new_data : Dict α) (key : String) (hn : new_data.NoDupKeys) :
    (getChangeDiff old_data new_data).modified.lookup key =
      match new_data.lookup key, old_data.lookup key with
      | some nv, some ov => if ov = nv then none else some (ov, nv)
      | _, _ => none := by
  induction new_data with
  | nil => simp [getChangeDiff, Dict.lookup]
  | cons hd tl ih =>
    obtain ⟨k1, v1⟩ := hd
    simp only [Dict.NoDupKeys, List.map_cons, List.nodup_cons] at hn
    have hnone : k1 ∉ tl.map Prod.fst → ∀ w,
        Dict.lookup (getChangeDiff old_data tl).modified k1 ≠ some w := by
      intro hmem w hw
      exact hmem ((keys_modified_sublist old_data tl).subset
        (Dict.mem_of_lookup_eq_some hw))
    simp only [getChangeDiff, List.filterMap_cons] at ih ⊢
    cases hl : Dict.lookup old_data k1 with
    | none =>
      by_cases h : k1 = key
      · subst h
        cases hmod : Dict.lookup
            (List.filterMap (fun kv =>
              match Dict.lookup old_data kv.1 with
              | none => none
              | some ov => if ov = kv.2 then none else some (kv.1, (ov, kv.2))) tl)
            k1 with
        | none => simp [Dict.lookup, hl, hmod]
        | some w =>
          exact absurd hmod (by
            have := hnone hn.1 w
            simpa [getChangeDiff] using this)
      · simp only [Dict.lookup, if_neg h]
        exact ih hn.2
    | some ov =>
      by_cases hov : ov = v1
      · subst hov
        simp only [if_pos rfl]
        by_cases h : k1 = key
        · subst h
          cases hmod : Dict.lookup
              (List.filterMap (fun kv =>
                match Dict.lookup old_data kv.1 with
                | none => none
                | some ov => if ov = kv.2 then none else some (kv.1, (ov, kv.2))) tl)
              k1 with
          | none => simp [Dict.lookup, hl, hmod]
          | some w =>
            exact absurd hmod (by
              have := hnone hn.1 w
              simpa [getChangeDiff] using this)
        · simp only [Dict.lookup, if_neg h]
          exact ih hn.2
      · simp only [if_neg hov]
        by_cases h : k1 = key
        · subst h
          simp [Dict.lookup, hl, hov]
        · simp only [Dict.lookup, if_neg h]
          exact ih hn.2

theorem mem_keys_removed {α : Type} [DecidableEq α]
    (old_data new_data : Dict α) (key : String) :
    key ∈ ((getChangeDiff old_data new_data).removed.map Prod.fst) ↔
      (old_data.containsKey key && !(new_data.containsKey key)) = true := by
  rw [← Dict.containsKey_iff_mem_keys, containsKey_removed]

/-- Replaying the recorded diff on the old document reproduces the new
document, key by key. -/
theorem lookup_applyDiff_getChangeDiff {α : Type} [DecidableEq α]
    (old_data new_data : Dict α) (hn : new_data.NoDupKeys) (key : String) :
    Dict.lookup (applyDiff old_data (getChangeDiff old_data new_data)) key =
      new_data.lookup key := by
  unfold applyDiff
  rw [Dict.lookup_update _ _ _ (NoDupKeys_added old_data new_data hn)]
  rw [Dict.lookup_update _ _ _ (NoDupKeys_modified old_data new_data hn)]
  rw [Dict.lookup_map_value]
  rw [Dict.lookup_foldl_eraseKey]
  rw [lookup_added, lookup_modified _ _ _ hn]
  by_cases hrem : key ∈ ((getChangeDiff old_data new_data).removed.map Prod.fst)
  · have h2 := (mem_keys_removed old_data new_data key).mp hrem
    cases ho1 : Dict.lookup old_data key <;>
      cases hn1 : Dict.lookup new_data key <;>
      simp [Dict.containsKey, ho1, hn1, hrem] at h2 ⊢
  · have h2 : ¬(old_data.containsKey key && !(new_data.containsKey key)) = true :=
      fun hh => hrem ((mem_keys_removed old_data new_data key).mpr hh)
    cases ho1 : Dict.lookup old_data key <;>
      cases hn1 : Dict.lookup new_data key <;>
      simp [Dict.containsKey, ho1, hn1, hrem] at h2 ⊢
    · rename_i ov nv
      by_cases hov : ov = nv <;> simp [hov]

/-- Versioned context snapshot (class `ContextVersion`).  The wall-clock
timestamp and the sha256 checksum are omitted: both are derived,
nondeterministic or hash-valued data that no claim observes. -/
structure ContextVersion where
  version : Nat
  contextData : Dict Val
  changedBy : String
  changeSummary : String
deriving DecidableEq, Repr

/-- One record of `SharedContextDB._change_log` (timestamp omitted). -/
structure ChangeLogEntry where
  version : Nat
  changedBy : String
  changes : Diff Val
  summary : String
deriving DecidableEq, Repr

/-- Outcome of invoking one subscriber callback: a normal return or a
raised exception (which `_notify_subscribers` catches and logs). -/
inductive CallResult : Type where
  | ok : CallResult
  | raised : String → CallResult
deriving DecidableEq, Repr

/-- A subscriber callback receives the raw updates dict and the name of
the producer of the change; it may raise. -/
abbrev Callback : Type := Dict Val → String → CallResult

/-- Trace record of one callback invocation performed by
`_notify_subscribers`, capturing the arguments passed and the outcome. -/
structure NotifyRecord where
  subscriber : String
  changes : Dict Val
  changedBy : String
  result : CallResult
deriving DecidableEq, Repr

/-- State of `SharedContextDB`.  The reentrant lock is not modelled: the
claims are about the sequential semantics of single calls. -/
structure SharedContextDB where
  contextData : Dict Val
  versions : List ContextVersion
  currentVersion : Nat
  subscribers : Dict (List Callback)
  changeLog : List ChangeLogEntry

/-- A freshly constructed `SharedContextDB()`. -/
def freshContextDB : SharedContextDB :=
  ⟨[], [], 0, [], []⟩

/-- Embedding of `SharedContextDB._notify_subscribers`: every callback of
every subscriber other than `changed_by` is invoked with the raw updates
dict and `changed_by`; a raised exception is caught (the failure is only
logged) and iteration continues with the next callback.  The returned
trace lists every invocation in order with its outcome. -/
def notifySubscribers (subs : List (String × List Callback))
    (changes : Dict Val) (changedBy : String) : List NotifyRecord :=
  subs.flatMap (fun s =>
    if s.1 = changedBy then []
    else s.2.map (fun cb => ⟨s.1, changes, changedBy, cb changes changedBy⟩))

/-- Embedding of `SharedContextDB.update_context`: merges the updates
into the document, increments the version counter, appends a
`ContextVersion` snapshot and a `ChangeLogEntry` holding the diff between
the old and the new document, then notifies subscribers.  Returns the new
state, the new version number, and the notification trace. -/
def updateContext (db : SharedContextDB) (updates : Dict Val)
    (changedBy summary : String) :
    SharedContextDB × Nat × List NotifyRecord :=
  let newData := db.contextData.update updates
  let newVersionNum := db.currentVersion + 1
  let snapshot : ContextVersion := ⟨newVersionNum, newData, changedBy, summary⟩
  let entry : ChangeLogEntry :=
    ⟨newVersionNum, changedBy, getChangeDiff db.contextData newData, summary⟩
  (⟨newData, db.versions ++ [snapshot], newVersionNum, db.subscribers,
    db.changeLog ++ [entry]⟩,
   newVersionNum,
   notifySubscribers db.subscribers updates changedBy)

/-- Embedding of `SharedContextDB.get_version`: linear scan for the exact
version number. -/
def getVersion (db : SharedContextDB) (versionNumber : Nat) :
    Option ContextVersion :=
  db.versions.find? (fun v => v.version == versionNumber)

/-- Embedding of `SharedContextDB.get_version_history`, including the
Python slicing quirk: `self._versions[-limit:]` is the whole list when
`limit` is `0`, and the empty-list guard returns `[]` first. -/
def getVersionHistory (db : SharedContextDB) (limit : Nat) :
    List ContextVersion :=
  if db.versions.isEmpty then []
  else if limit = 0 then db.versions
  else db.versions.drop (db.versions.length - limit)

/-- Embedding of `SharedContextDB.subscribe_to_changes`: appends the
callback to the defaultdict list of that subscriber. -/
def subscribeToChanges (db : SharedContextDB) (subscriber : String)
    (cb : Callback) : SharedContextDB :=
  ⟨db.contextData, db.versions, db.currentVersion,
   db.subscribers.insertD subscriber
     (db.subscribers.getD subscriber [] ++ [cb]),
   db.changeLog⟩

/-- A whole run against the store: fold a list of
(updates, changed_by, summary) calls over `update_context`, discarding
the per-call return values. -/
def applyUpdates (db : SharedContextDB)
    (calls : List (Dict Val × String × String)) : SharedContextDB :=
  calls.foldl (fun acc c => (updateContext acc c.1 c.2.1 c.2.2).1) db

/-- The sequence of committed documents, oldest first, preceded by the
empty initial document (version 0 is never stored as a record). -/
def dataSeq (db : SharedContextDB) : List (Dict Val) :=
  [] :: db.versions.map ContextVersion.contextData

/-- Invariant of every store state reachable from `SharedContextDB()` by
`update_context` calls: the version list and the change log advance in
lockstep with the counter, version numbers are `1..currentVersion`, the
live document is the last snapshot, all documents have duplicate-free
keys, and change-log entry `i` records the diff between consecutive
documents `i` and `i+1` of `dataSeq`. -/
structure StoreInv (db : SharedContextDB) : Prop where
  verLen : db.versions.length = db.currentVersion
  logLen : db.changeLog.length = db.currentVersion
  verNums : db.versions.map ContextVersion.version =
    List.range' 1 db.currentVersion
  lastData : (dataSeq db).getLast? = some db.contextData
  nodupAll : ∀ d ∈ dataSeq db, d.NoDupKeys
  logDiff : ∀ i, (db.changeLog[i]?).map ChangeLogEntry.changes =
    match (dataSeq db)[i]?, (dataSeq db)[i+1]? with
    | some a, some b => some (getChangeDiff a b)
    | _, _ => none

theorem storeInv_fresh : StoreInv freshContextDB := by
  refine ⟨rfl, rfl, by simp [freshContextDB], by simp [dataSeq, freshContextDB],
    ?_, ?_⟩
  · intro d hd
    simp [dataSeq, freshContextDB] at hd
    simp [hd, Dict.NoDupKeys]
  · intro i
    cases i <;> simp [dataSeq, freshContextDB]

theorem dataSeq_updateContext (db : SharedContextDB) (u : Dict Val)
    (cb s : String) :
    dataSeq (updateContext db u cb s).1 =
      dataSeq db ++ [db.contextData.update u] := by
  simp [dataSeq, updateContext]

theorem storeInv_updateContext (db : SharedContextDB) (u : Dict Val)
    (cb s : String) (h : StoreInv db) :
    StoreInv (updateContext db u cb s).1 := by
  have hmem : db.contextData ∈ dataSeq db :=
    List.mem_of_mem_getLast? (by simp [h.lastData])
  have hlen : (dataSeq db).length = db.currentVersion + 1 := by
    simp [dataSeq, h.verLen]
  refine ⟨?_, ?_, ?_, ?_, ?_, ?_⟩
  · simp [updateContext, h.verLen]
  · simp [updateContext, h.logLen]
  · have hc : List.range' 1 (db.currentVersion + 1) =
        List.range' 1 db.currentVersion ++ [1 + 1 * db.currentVersion] :=
      List.range'_concat 1 db.currentVersion
    simp only [updateContext, List.map_append, List.map_cons, List.map_nil,
      h.verNums]
    rw [hc]
    simp [Nat.add_comm]
  · rw [dataSeq_updateContext]
    simp [updateContext, List.getLast?_concat]
  · rw [dataSeq_updateContext]
    intro d hd
    rcases List.mem_append.mp hd with h1 | h1
    · exact h.nodupAll d h1
    · simp only [List.mem_singleton] at h1
      subst h1
      exact Dict.NoDupKeys_update _ _ (h.nodupAll _ hmem)
  · intro i
    have hL := h.logLen
    have hDS := hlen
    rw [dataSeq_updateContext]
    have hlog : (updateContext db u cb s).1.changeLog =
        db.changeLog ++
          [⟨db.currentVersion + 1, cb,
            getChangeDiff db.contextData (db.contextData.update u), s⟩] := by
      simp [updateContext]
    rw [hlog]
    rcases Nat.lt_trichotomy i db.changeLog.length with hi | hi | hi
    · rw [List.getElem?_append_left hi]
      rw [List.getElem?_append_left (by omega : i < (dataSeq db).length)]
      rw [List.getElem?_append_left (by omega : i + 1 < (dataSeq db).length)]
      exact h.logDiff i
    · subst hi
      rw [List.getElem?_append_right (Nat.le_refl _)]
      have h1 : (dataSeq db)[db.changeLog.length]? = some db.contextData := by
        have h5 := h.lastData
        rw [List.getLast?_eq_getElem?] at h5
        rw [hDS] at h5
        rw [hL]
        simpa using h5
      rw [List.getElem?_append_left
        (by omega : db.changeLog.length < (dataSeq db).length), h1]
      rw [List.getElem?_append_right
        (by omega : (dataSeq db).length ≤ db.changeLog.length + 1)]
      have h2 : db.changeLog.length + 1 - (dataSeq db).length = 0 := by omega
      rw [h2]
      simp
    · have h3 : (db.changeLog ++
          [⟨db.currentVersion + 1, cb,
            getChangeDiff db.contextData (db.contextData.update u), s⟩])[i]? =
          none := by
        apply List.getElem?_eq_none
        simp only [List.length_append, List.length_singleton]
        omega
      have h4 : (dataSeq db ++ [db.contextData.update u])[i+1]? = none := by
        apply List.getElem?_eq_none
        simp only [List.length_append, List.length_singleton]
        omega
      rw [h3, h4]
      cases (dataSeq db ++ [db.contextData.update u])[i]? <;> simp

theorem storeInv_applyUpdates (db : SharedContextDB)
    (calls : List (Dict Val × String × String)) (h : StoreInv db) :
    StoreInv (applyUpdates db calls) := by
  induction calls generalizing db with
  | nil => exact h
  | cons c tl ih => exact ih _ (storeInv_updateContext _ _ _ _ h)

theorem currentVersion_applyUpdates (db : SharedContextDB)
    (calls : List (Dict Val × String × String)) :
    (applyUpdates db calls).currentVersion =
      db.currentVersion + calls.length := by
  induction calls generalizing db with
  | nil => simp [applyUpdates]
  | cons c tl ih =>
    simp only [applyUpdates, List.foldl_cons] at ih ⊢
    rw [ih]
    simp [updateContext]
    omega

/-- Python ordered comparison `a < b` between dynamic values: defined
within a tag (int/int, str/str), TypeError across tags, modelled as
`none`. -/
def pyLt : Val → Val → Option Bool
  | Val.VInt a, Val.VInt b => some (decide (a < b))
  | Val.VStr a, Val.VStr b => some (decide (a < b))
  | _, _ => none

/-- Python `a > b`. -/
def pyGt (a b : Val) : Option Bool := pyLt b a

/-- Python `a <= b`. -/
def pyLe : Val → Val → Option Bool
  | Val.VInt a, Val.VInt b => some (decide (a ≤ b))
  | Val.VStr a, Val.VStr b => some (decide (a ≤ b))
  | _, _ => none

/-- Python `a >= b`. -/
def pyGe (a b : Val) : Option Bool := pyLe b a

/-- Python `v + n` with an integer literal on the right: TypeError unless
`v` is an integer. -/
def pyAddInt : Val → Int → Option Val
  | Val.VInt a, n => some (Val.VInt (a + n))
  | _, _ => none

/-- Result shape of `AgentCommunicationHub.validate_story_consistency`
(timestamp omitted). -/
structure SCValidation where
  is_valid : Bool
  conflicts : List String
  warnings : List String
  validated_by : String
deriving DecidableEq, Repr

/-- The `current_location` block of `validate_story_consistency`: a
proposed location equal to the current one (default "") yields a
warning. -/
def locationWarnings (currentContext proposed : Dict Val) : List String :=
  match proposed.lookup "current_location" with
  | none => []
  | some newLocation =>
    if newLocation = currentContext.getD "current_location" (Val.VStr "") then
      ["Location change to same location"]
    else []

/-- The `player_health` block of `validate_story_consistency`: a proposed
health above current + 50 and a negative proposed health each append a
conflict; comparisons against a non-integer current health raise
(`none`). -/
def healthConflicts (currentContext proposed : Dict Val) :
    Option (List String) :=
  match proposed.lookup "player_health" with
  | none => some []
  | some newHealth =>
    match pyAddInt (currentContext.getD "player_health" (Val.VInt 100)) 50 with
    | none => none
    | some lim =>
      match pyGt newHealth lim, pyLt newHealth (Val.VInt 0) with
      | some c1, some c2 =>
        some ((if c1 then ["Excessive health increase without explanation"]
               else []) ++
              (if c2 then ["Player health cannot be negative"] else []))
      | _, _ => none

/-- The `story_progress` block of `validate_story_consistency`: a
proposed progress below the current one (default 0) appends a
conflict. -/
def progressConflicts (currentContext proposed : Dict Val) :
    Option (List String) :=
  match proposed.lookup "story_progress" with
  | none => some []
  | some newProgress =>
    match pyLt newProgress (currentContext.getD "story_progress" (Val.VInt 0)) with
    | none => none
    | some c =>
      some (if c then ["Story progress cannot go backwards"] else [])

/-- Embedding of `AgentCommunicationHub.validate_story_consistency`,
evaluated against the current context document obtained from
`get_context()`.  `is_valid` is the emptiness of the conflict list;
warnings never contribute to it. -/
def validateStoryConsistency (currentContext proposed : Dict Val) :
    Option SCValidation :=
  match healthConflicts currentContext proposed,
      progressConflicts currentContext proposed with
  | some hc, some pc =>
    some ⟨(hc ++ pc).isEmpty, hc ++ pc,
          locationWarnings currentContext proposed, "communication_hub"⟩
  | _, _ => none

/-- One named consistency rule of `StoryConsistencyManager`: a predicate
over the candidate context plus a human-readable message.  The predicate
may raise (`none`) on ill-typed values. -/
structure ConsistencyRule where
  name : String
  message : String
  check : Dict Val → Option Bool

/-- Rule `health_bounds`: Python chained comparison
`0 <= ctx.get("player_health", 100) <= 100` (the second comparison is
not evaluated when the first is False). -/
def healthBoundsCheck (ctx : Dict Val) : Option Bool :=
  match pyLe (Val.VInt 0) (ctx.getD "player_health" (Val.VInt 100)) with
  | none => none
  | some b1 =>
    if b1 then pyLe (ctx.getD "player_health" (Val.VInt 100)) (Val.VInt 100)
    else some false

/-- Rule `progress_monotonic`: `ctx.get("story_progress", 0) >= 0`. -/
def progressCheck (ctx : Dict Val) : Option Bool :=
  pyGe (ctx.getD "story_progress" (Val.VInt 0)) (Val.VInt 0)

/-- Rule `required_fields`: both `player_name` and `current_location`
present. -/
def requiredFieldsCheck (ctx : Dict Val) : Option Bool :=
  some (ctx.containsKey "player_name" && ctx.containsKey "current_location")

/-- The three default rules installed by the manager's constructor, in
registration order. -/
def defaultRules : List ConsistencyRule :=
  [⟨"health_bounds", "Player health must be between 0 and 100",
    healthBoundsCheck⟩,
   ⟨"progress_monotonic", "Story progress cannot be negative",
    progressCheck⟩,
   ⟨"required_fields", "Required fields must be present",
    requiredFieldsCheck⟩]

/-- The rule loop of `validate_changes`: every rule is evaluated (no
short-circuit) and each failing rule contributes one
(rule name, message) violation, in rule order. -/
def runRules : List ConsistencyRule → Dict Val → Option (List (String × String))
  | [], _ => some []
  | r :: rs, ctx =>
    match r.check ctx with
    | none => none
    | some ok =>
      match runRules rs ctx with
      | none => none
      | some rest => some (if ok then rest else (r.name, r.message) :: rest)

/-- Result shape of `StoryConsistencyManager.validate_changes`
(timestamp omitted). -/
structure VCResult where
  is_valid : Bool
  violations : List (String × String)
deriving DecidableEq, Repr

/-- Embedding of `StoryConsistencyManager.validate_changes`: builds the
candidate `current.copy()` updated with the proposed changes, evaluates
every default rule against it, and reports the violations.  The store
itself is not modified (the function only reads `get_context()`). -/
def validateChanges (currentContext proposed : Dict Val) : Option VCResult :=
  match runRules defaultRules (currentContext.update proposed) with
  | none => none
  | some viols => some ⟨viols.isEmpty, viols⟩

/-- Outcome of invoking a conflict resolver: a resolution value or a
raised exception (caught by `resolve_conflicts`). -/
inductive ResolveOutcome : Type where
  | ok : Val → ResolveOutcome
  | raised : String → ResolveOutcome

/-- A per-type conflict resolver function. -/
abbrev ConflictResolver : Type := Dict Val → ResolveOutcome

/-- Lookup of `self._conflict_resolvers[conflict_type]`; keys are the
dynamic type tags. -/
def lookupResolver : List (Val × ConflictResolver) → Val →
    Option ConflictResolver
  | [], _ => none
  | (t, f) :: rest, ty => if t = ty then some f else lookupResolver rest ty

/-- Result shape of `StoryConsistencyManager.resolve_conflicts`
(timestamp omitted): captured resolutions and untouched unresolved
conflicts. -/
structure ResolveResult where
  resolved : List Val
  unresolved : List (Dict Val)

/-- Embedding of `StoryConsistencyManager.resolve_conflicts`: each
conflict is looked up by its `type` tag (default "unknown"); a missing
resolver or a raising resolver routes the conflict to `unresolved`, a
normal return captures the resolution in `resolved`, preserving input
order in both buckets. -/
def resolveConflicts (resolvers : List (Val × ConflictResolver)) :
    List (Dict Val) → ResolveResult
  | [] => ⟨[], []⟩
  | c :: cs =>
    match lookupResolver resolvers (c.getD "type" (Val.VStr "unknown")) with
    | none => ⟨(resolveConflicts resolvers cs).resolved,
               c :: (resolveConflicts resolvers cs).unresolved⟩
    | some f =>
      match f c with
      | ResolveOutcome.ok res =>
        ⟨res :: (resolveConflicts resolvers cs).resolved,
         (resolveConflicts resolvers cs).unresolved⟩
      | ResolveOutcome.raised _ =>
        ⟨(resolveConflicts resolvers cs).resolved,
         c :: (resolveConflicts resolvers cs).unresolved⟩

/-- The closed set of message kinds (`MessageType` enum). -/
inductive MessageType : Type where
  | storyUpdate
  | characterChange
  | locationChange
  | questUpdate
  | dialogueRequest
  | audioCue
  | contextSync
  | validationRequest
  | errorReport
  | collaborationRequest
deriving DecidableEq, Repr

/-- Message priority levels. -/
inductive Priority : Type where
  | low
  | medium
  | high
  | critical
deriving DecidableEq, Repr

/-- Inter-agent message (`AgentMessage` dataclass).  The md5 id, the
creation timestamp, the response deadline and the response payload are
omitted: they are nondeterministic or unread by the modelled
operations. -/
structure AgentMessage where
  sender : String
  recipient : String
  messageType : MessageType
  content : Dict Val
  priority : Priority
  requiresResponse : Bool
  processed : Bool
deriving DecidableEq, Repr

/-- Per-agent registration statistics (timestamps omitted). -/
structure AgentStats where
  messagesSent : Nat
  messagesReceived : Nat
deriving DecidableEq, Repr

/-- A multi-agent conversation record (start time and per-message
timestamps omitted). -/
structure Conversation where
  id : String
  initiator : String
  participants : List String
  topic : String
  messages : List (String × Dict Val)
  status : String
deriving DecidableEq, Repr

/-- State of `AgentCommunicationHub`.  Message handlers are omitted: the
source dispatches them fire-and-forget with exceptions caught, and they
never touch the queue, the stats or the conversations, so no claim can
observe them. -/
structure Hub where
  messageQueue : List AgentMessage
  agentStatus : Dict AgentStats
  activeConversations : Dict Conversation
deriving DecidableEq, Repr

/-- A freshly constructed hub. -/
def emptyHub : Hub := ⟨[], [], []⟩

/-- Embedding of `AgentCommunicationHub.register_agent`: installs a
fresh stats record under the agent's name. -/
def registerAgent (hub : Hub) (agentName : String) : Hub :=
  ⟨hub.messageQueue, hub.agentStatus.insertD agentName ⟨0, 0⟩,
   hub.activeConversations⟩

/-- Embedding of `AgentCommunicationHub.send_message`: rejects an
unregistered sender, rejects a recipient that is neither registered nor
the literal "broadcast", otherwise appends the message to the queue and
bumps the sender's sent counter.  (For a non-broadcast recipient the
source also dispatches registered handlers; handlers are unmodelled, see
`Hub`.) -/
def sendMessage (hub : Hub) (m : AgentMessage) : Hub × Bool :=
  if !(hub.agentStatus.containsKey m.sender) then (hub, false)
  else if !(hub.agentStatus.containsKey m.recipient) &&
      !(m.recipient == "broadcast") then (hub, false)
  else
    let stats := hub.agentStatus.getD m.sender ⟨0, 0⟩
    (⟨hub.messageQueue ++ [m],
      hub.agentStatus.insertD m.sender
        ⟨stats.messagesSent + 1, stats.messagesReceived⟩,
      hub.activeConversations⟩, true)

/-- The selection predicate of `get_messages_for_agent`: unprocessed,
addressed to the agent or to "broadcast", and passing the optional kind
filter (Python `if not message_types or ...`: a `None` or empty filter
selects every kind). -/
def selectsFor (agentName : String) (messageTypes : Option (List MessageType))
    (m : AgentMessage) : Bool :=
  (m.recipient == agentName || m.recipient == "broadcast") && !m.processed &&
    (match messageTypes with
     | none => true
     | some ts => ts.isEmpty || ts.contains m.messageType)

/-- The in-place mutation `message.processed = True`. -/
def markProcessed (m : AgentMessage) : AgentMessage :=
  ⟨m.sender, m.recipient, m.messageType, m.content, m.priority,
   m.requiresResponse, true⟩

/-- Embedding of `AgentCommunicationHub.get_messages_for_agent`: collects
every matching message, marks each one processed in the queue (broadcast
included — the source's `message.processed = True` is unconditional), and
bumps the receiver's received counter once per matching non-broadcast
message.  Returns the mutated hub and the returned message objects (which
the caller observes in their post-mutation, processed state). -/
def getMessagesForAgent (hub : Hub) (agentName : String)
    (messageTypes : Option (List MessageType)) : Hub × List AgentMessage :=
  let selected := hub.messageQueue.filter (selectsFor agentName messageTypes)
  let newQueue := hub.messageQueue.map
    (fun m => if selectsFor agentName messageTypes m then markProcessed m else m)
  let receivedCount :=
    (selected.filter (fun m => !(m.recipient == "broadcast"))).length
  let stats := hub.agentStatus.getD agentName ⟨0, 0⟩
  let newStatus :=
    if hub.agentStatus.containsKey agentName then
      hub.agentStatus.insertD agentName
        ⟨stats.messagesSent, stats.messagesReceived + receivedCount⟩
    else hub.agentStatus
  (⟨newQueue, newStatus, hub.activeConversations⟩, selected.map markProcessed)

/-- Embedding of `AgentCommunicationHub.start_conversation`.  The md5
conversation id is nondeterministic and passed as a parameter.  For every
participant other than the initiator the source builds a
collaboration_request invite whose sender is the literal
"communication_hub" and hands it to `send_message` (the returned success
flag is discarded).  The invite content carries the conversation id, the
initiator and the topic (the participants list, a Python list value, is
not representable in `Val` and is omitted from the modelled content; no
claim reads it). -/
def startConversation (hub : Hub) (initiator : String)
    (participants : List String) (topic : String) (conversationId : String) :
    Hub × String :=
  let conv : Conversation :=
    ⟨conversationId, initiator, participants, topic, [], "active"⟩
  let hub1 : Hub := ⟨hub.messageQueue, hub.agentStatus,
    hub.activeConversations.insertD conversationId conv⟩
  let hub2 := participants.foldl
    (fun acc p =>
      if !(p == initiator) then
        (sendMessage acc
          ⟨"communication_hub", p, MessageType.collaborationRequest,
           [("conversation_id", Val.VStr conversationId),
            ("initiator", Val.VStr initiator),
            ("topic", Val.VStr topic)],
           Priority.high, false, false⟩).1
      else acc)
    hub1
  (hub2, conversationId)

theorem mem_notifySubscribers (subs : Dict (List Callback))
    (changes : Dict Val) (changedBy : String) :
    ∀ s ∈ subs, s.1 ≠ changedBy → ∀ cb ∈ s.2,
      (⟨s.1, changes, changedBy, cb changes changedBy⟩ : NotifyRecord) ∈
        notifySubscribers subs changes changedBy := by
  intro s hs hne cb hcb
  unfold notifySubscribers
  rw [List.mem_flatMap]
  refine ⟨s, hs, ?_⟩
  rw [if_neg hne]
  exact List.mem_map.mpr ⟨cb, hcb, rfl⟩

theorem notifySubscribers_sound (subs : Dict (List Callback))
    (changes : Dict Val) (changedBy : String) :
    ∀ r ∈ notifySubscribers subs changes changedBy,
      r.subscriber ≠ changedBy ∧ r.changes = changes ∧
        r.changedBy = changedBy := by
  intro r hr
  unfold notifySubscribers at hr
  rw [List.mem_flatMap] at hr
  obtain ⟨s, hs, hr⟩ := hr
  by_cases hne : s.1 = changedBy
  · rw [if_pos hne] at hr
    simp at hr
  · rw [if_neg hne] at hr
    obtain ⟨cb, hcb, hrec⟩ := List.mem_map.mp hr
    subst hrec
    exact ⟨hne, rfl, rfl⟩

/-- C7: for every `update_context` call with registered subscribers, a
subscriber callback that raises never aborts the commit (the version is
still advanced and the snapshot recorded), never propagates to the
caller (`updateContext` is total: `_notify_subscribers` catches each
callback exception), and never prevents the remaining subscribers'
callbacks from being invoked (the trace holds one record per callback of
every other subscriber, whatever each callback's outcome). -/
theorem updateContext_isolates_callback_failures (db : SharedContextDB)
    (updates : Dict Val) (changedBy summary : String) :
    (updateContext db updates changedBy summary).1.currentVersion =
        db.currentVersion + 1 ∧
    (updateContext db updates changedBy summary).1.versions =
      db.versions ++
        [⟨db.currentVersion + 1, db.contextData.update updates,
          changedBy, summary⟩] ∧
    (∀ s ∈ db.subscribers, s.1 ≠ changedBy → ∀ cb ∈ s.2,
      (⟨s.1, updates, changedBy, cb updates changedBy⟩ : NotifyRecord) ∈
        (updateContext db updates changedBy summary).2.2) := by
  refine ⟨rfl, rfl, ?_⟩
  intro s hs hne cb hcb
  exact mem_notifySubscribers db.subscribers updates changedBy s hs hne cb hcb

/-- A store with three subscribers, the middle one throwing. -/
def demoSubscribedDB : SharedContextDB :=
  ⟨[], [], 0,
   [("s1", [fun _ _ => CallResult.ok]),
    ("s2", [fun _ _ => CallResult.raised "boom"]),
    ("s3", [fun _ _ => CallResult.ok])],
   []⟩

/-- Witness for C7: on a store with three subscribers where the second
callback throws, the commit still advances the version and the third
subscriber's callback is still invoked. -/
theorem updateContext_isolates_callback_failures_witness :
    (updateContext demoSubscribedDB [("k", Val.VInt 7)] "producer" "s").1.currentVersion =
        demoSubscribedDB.currentVersion + 1 ∧
    (updateContext demoSubscribedDB [("k", Val.VInt 7)] "producer" "s").1.versions =
      demoSubscribedDB.versions ++
        [⟨demoSubscribedDB.currentVersion + 1,
          demoSubscribedDB.contextData.update [("k", Val.VInt 7)],
          "producer", "s"⟩] ∧
    (⟨"s3", [("k", Val.VInt 7)], "producer", CallResult.ok⟩ : NotifyRecord) ∈
      (updateContext demoSubscribedDB [("k", Val.VInt 7)] "producer" "s").2.2 := by
  obtain ⟨h1, h2, h3⟩ := updateContext_isolates_callback_failures
    demoSubscribedDB [("k", Val.VInt 7)] "producer" "s"
  refine ⟨h1, h2, ?_⟩
  exact h3 ("s3", [fun _ _ => CallResult.ok]) (by simp [demoSubscribedDB])
    (by decide) (fun _ _ => CallResult.ok) (by simp)

/-- C9: no callback registered under the subscriber name equal to
`changed_by` is invoked for that update (every trace record carries a
different subscriber name), and every callback of every other subscriber
is invoked with the raw updates dict and `changed_by`. -/
theorem updateContext_skips_changer_notifies_others (db : SharedContextDB)
    (updates : Dict Val) (changedBy summary : String) :
    (∀ r ∈ (updateContext db updates changedBy summary).2.2,
      r.subscriber ≠ changedBy ∧ r.changes = updates ∧
        r.changedBy = changedBy) ∧
    (∀ s ∈ db.subscribers, s.1 ≠ changedBy → ∀ cb ∈ s.2,
      (⟨s.1, updates, changedBy, cb updates changedBy⟩ : NotifyRecord) ∈
        (updateContext db updates changedBy summary).2.2) := by
  constructor
  · intro r hr
    exact notifySubscribers_sound db.subscribers updates changedBy r hr
  · intro s hs hne cb hcb
    exact mem_notifySubscribers db.subscribers updates changedBy s hs hne cb hcb

/-- A store where the producer itself is subscribed alongside another
subscriber. -/
def demoSelfSubscribedDB : SharedContextDB :=
  ⟨[], [], 0,
   [("producer", [fun _ _ => CallResult.ok]),
    ("s2", [fun _ _ => CallResult.ok])],
   []⟩

/-- Witness for C9: with the producer subscribed to its own store, the
other subscriber's callback record is in the trace and carries a
subscriber name different from the producer. -/
theorem updateContext_skips_changer_notifies_others_witness :
    ((⟨"s2", [("k", Val.VInt 1)], "producer", CallResult.ok⟩ : NotifyRecord) ∈
      (updateContext demoSelfSubscribedDB [("k", Val.VInt 1)] "producer" "s").2.2) ∧
    ("s2" : String) ≠ "producer" := by
  constructor
  · exact (updateContext_skips_changer_notifies_others demoSelfSubscribedDB
      [("k", Val.VInt 1)] "producer" "s").2
      ("s2", [fun _ _ => CallResult.ok]) (by simp [demoSelfSubscribedDB])
      (by decide) (fun _ _ => CallResult.ok) (by simp)
  · decide

/-- C3: after any sequence of N successful `update_context` calls on a
freshly constructed store, `get_version_history(N)` returns exactly N
records whose version fields are `1..N` in strictly increasing order
with no gaps, oldest first. -/
theorem versionHistory_is_range (calls : List (Dict Val × String × String)) :
    ((getVersionHistory (applyUpdates freshContextDB calls)
        calls.length).map ContextVersion.version =
      List.range' 1 calls.length) ∧
    (getVersionHistory (applyUpdates freshContextDB calls)
        calls.length).length = calls.length := by
  have hinv := storeInv_applyUpdates freshContextDB calls storeInv_fresh
  have hcur : (applyUpdates freshContextDB calls).currentVersion =
      calls.length := by
    rw [currentVersion_applyUpdates]
    simp [freshContextDB]
  have hlen : (applyUpdates freshContextDB calls).versions.length =
      calls.length := by
    rw [hinv.verLen, hcur]
  have hist : getVersionHistory (applyUpdates freshContextDB calls)
      calls.length = (applyUpdates freshContextDB calls).versions := by
    unfold getVersionHistory
    by_cases h0 : calls.length = 0
    · have hv : (applyUpdates freshContextDB calls).versions = [] :=
        List.length_eq_zero.mp (by rw [hlen, h0])
      rw [hv]
      simp
    · have hne : (applyUpdates freshContextDB calls).versions.isEmpty =
          false := by
        rw [List.isEmpty_eq_false_iff_exists_mem]
        have : 0 < (applyUpdates freshContextDB calls).versions.length := by
          rw [hlen]
          omega
        obtain ⟨x, hx⟩ := List.exists_mem_of_length_pos this
        exact ⟨x, hx⟩
      rw [hne]
      simp only [Bool.false_eq_true, if_false, if_neg h0]
      rw [hlen]
      simp
  rw [hist, hinv.verNums, hcur, hlen]
  exact ⟨rfl, rfl⟩

theorem removed_getChangeDiff_update {α : Type} [DecidableEq α]
    (d u : Dict α) : (getChangeDiff d (d.update u)).removed = [] := by
  unfold getChangeDiff
  apply List.filter_eq_nil_iff.mpr
  intro kv hkv
  have hmem : d.containsKey kv.1 = true :=
    (Dict.containsKey_iff_mem_keys d kv.1).mpr
      (List.mem_map_of_mem Prod.fst hkv)
  simp [Dict.containsKey_update_of_containsKey d u kv.1 hmem]

theorem changeLog_removed_applyUpdates
    (calls : List (Dict Val × String × String)) (db : SharedContextDB)
    (h : ∀ e ∈ db.changeLog, e.changes.removed = []) :
    ∀ e ∈ (applyUpdates db calls).changeLog, e.changes.removed = [] := by
  induction calls generalizing db with
  | nil => exact h
  | cons c tl ih =>
    apply ih
    intro e he
    simp only [updateContext] at he
    rcases List.mem_append.mp he with h1 | h1
    · exact h e h1
    · simp only [List.mem_singleton] at h1
      subst h1
      exact removed_getChangeDiff_update db.contextData c.1

/-- C10: `update_context` never removes a key from the context document
(every key present before the call is still present after it, possibly
overwritten), so the `removed` partition of every change-log entry
produced through the public interface is empty. -/
theorem updateContext_never_removes_keys :
    (∀ (d u : Dict Val) (key : String), d.containsKey key = true →
      (d.update u).containsKey key = true) ∧
    (∀ (calls : List (Dict Val × String × String)),
      ∀ e ∈ (applyUpdates freshContextDB calls).changeLog,
        e.changes.removed = []) := by
  constructor
  · exact fun d u key h => Dict.containsKey_update_of_containsKey d u key h
  · intro calls e he
    exact changeLog_removed_applyUpdates calls freshContextDB
      (by intro e he; simp [freshContextDB] at he) e he

/-- Witness for C10: a present key survives an overwriting update, and
the change log of a concrete two-call run has empty removed partitions
throughout. -/
theorem updateContext_never_removes_keys_witness :
    Dict.containsKey (Dict.update [("a", Val.VInt 1)]
      [("a", Val.VInt 2), ("b", Val.VInt 3)]) "a" = true ∧
    (⟨2, "y", getChangeDiff [("a", Val.VInt 1)]
        [("a", Val.VInt 1), ("b", Val.VInt 2)], "s2"⟩ :
      ChangeLogEntry).changes.removed = [] := by
  constructor
  · exact updateContext_never_removes_keys.1 [("a", Val.VInt 1)]
      [("a", Val.VInt 2), ("b", Val.VInt 3)] "a" (by decide)
  · exact updateContext_never_removes_keys.2
      [([("a", Val.VInt 1)], "x", "s1"),
       ([("b", Val.VInt 2)], "y", "s2")]
      ⟨2, "y", getChangeDiff [("a", Val.VInt 1)]
        [("a", Val.VInt 1), ("b", Val.VInt 2)], "s2"⟩
      (by decide)

/-- C4: for every pair of consecutive committed versions v and v+1 of a
store reachable from `SharedContextDB()`, the change-log diff recorded
with version v+1 partitions the affected keys into disjoint added /
modified / removed sets (added: keys of the new document only; modified:
keys of both documents with different values, recording old and new;
removed: keys of the old document only), and applying that diff to
`v.context_data` yields exactly `v+1.context_data`. -/
theorem changeLog_diff_partitions_and_replays
    (calls : List (Dict Val × String × String)) (i : Nat)
    (v w : ContextVersion) (e : ChangeLogEntry)
    (hv : (applyUpdates freshContextDB calls).versions[i]? = some v)
    (hw : (applyUpdates freshContextDB calls).versions[i+1]? = some w)
    (he : (applyUpdates freshContextDB calls).changeLog[i+1]? = some e) :
    (∀ key,
      (e.changes.added.containsKey key =
        (w.contextData.containsKey key &&
          !(v.contextData.containsKey key))) ∧
      (e.changes.removed.containsKey key =
        (v.contextData.containsKey key &&
          !(w.contextData.containsKey key))) ∧
      (Dict.containsKey e.changes.modified key = true →
        v.contextData.containsKey key = true ∧
        w.contextData.containsKey key = true) ∧
      ¬(e.changes.added.containsKey key = true ∧
        Dict.containsKey e.changes.modified key = true) ∧
      ¬(e.changes.added.containsKey key = true ∧
        e.changes.removed.containsKey key = true) ∧
      ¬(Dict.containsKey e.changes.modified key = true ∧
        e.changes.removed.containsKey key = true)) ∧
    (∀ key pr, Dict.lookup e.changes.modified key = some pr →
      v.contextData.lookup key = some pr.1 ∧
      w.contextData.lookup key = some pr.2 ∧ pr.1 ≠ pr.2) ∧
    (∀ key, Dict.lookup (applyDiff v.contextData e.changes) key =
      w.contextData.lookup key) := by
  have hinv := storeInv_applyUpdates freshContextDB calls storeInv_fresh
  have hds1 : (dataSeq (applyUpdates freshContextDB calls))[i+1]? =
      some v.contextData := by
    simp only [dataSeq, List.getElem?_cons_succ, List.getElem?_map, hv,
      Option.map_some']
  have hds2 : (dataSeq (applyUpdates freshContextDB calls))[i+2]? =
      some w.contextData := by
    simp only [dataSeq, List.getElem?_cons_succ, List.getElem?_map, hw,
      Option.map_some']
  have hlog := hinv.logDiff (i + 1)
  rw [he, hds1] at hlog
  rw [(by rfl : i + 1 + 1 = i + 2), hds2] at hlog
  simp only [Option.map_some'] at hlog
  have hchanges : e.changes = getChangeDiff v.contextData w.contextData := by
    exact Option.some_injective _ hlog
  have hnw : w.contextData.NoDupKeys :=
    hinv.nodupAll w.contextData (List.getElem?_mem hds2)
  rw [hchanges]
  refine ⟨?_, ?_, ?_⟩
  · intro key
    have hmodChar := lookup_modified v.contextData w.contextData key hnw
    have hmod : Dict.containsKey
        (getChangeDiff v.contextData w.contextData).modified key = true →
        v.contextData.containsKey key = true ∧
        w.contextData.containsKey key = true := by
      intro hm
      simp only [Dict.containsKey, hmodChar] at hm
      cases hw1 : Dict.lookup w.contextData key with
      | none => rw [hw1] at hm; simp at hm
      | some nv =>
        cases hv1 : Dict.lookup v.contextData key with
        | none => rw [hw1, hv1] at hm; simp at hm
        | some ov => simp [Dict.containsKey, hv1, hw1]
    refine ⟨containsKey_added v.contextData w.contextData key,
      containsKey_removed v.contextData w.contextData key, hmod, ?_, ?_, ?_⟩
    · rintro ⟨ha, hm⟩
      rw [containsKey_added] at ha
      obtain ⟨hv1, hw1⟩ := hmod hm
      simp [hv1] at ha
    · rintro ⟨ha, hr⟩
      rw [containsKey_added] at ha
      rw [containsKey_removed] at hr
      simp only [Bool.and_eq_true, Bool.not_eq_true'] at ha hr
      rw [ha.1] at hr
      simp at hr
    · rintro ⟨hm, hr⟩
      rw [containsKey_removed] at hr
      obtain ⟨hv1, hw1⟩ := hmod hm
      simp [hw1] at hr
  · intro key pr hpr
    rw [lookup_modified v.contextData w.contextData key hnw] at hpr
    cases hw1 : Dict.lookup w.contextData key with
    | none => rw [hw1] at hpr; simp at hpr
    | some nv =>
      cases hv1 : Dict.lookup v.contextData key with
      | none => rw [hw1, hv1] at hpr; simp at hpr
      | some ov =>
        rw [hw1, hv1] at hpr
        by_cases hov : ov = nv
        · simp [hov] at hpr
        · obtain ⟨p1, p2⟩ := pr
          simp [hov] at hpr
          obtain ⟨hp1, hp2⟩ := hpr
          subst hp1
          subst hp2
          exact ⟨rfl, rfl, hov⟩
  · intro key
    exact lookup_applyDiff_getChangeDiff v.contextData w.contextData hnw key

/-- A concrete two-call run used to witness the change-log claims. -/
def demoCalls : List (Dict Val × String × String) :=
  [([("a", Val.VInt 1)], "x", "s1"), ([("b", Val.VInt 2)], "y", "s2")]

/-- Witness for C4: on the concrete two-call run, the entry recorded
with version 2 replays version 1 into version 2 at the affected key, and
its added partition is exactly the fresh key. -/
theorem changeLog_diff_partitions_and_replays_witness :
    Dict.lookup
      (applyDiff [("a", Val.VInt 1)]
        (⟨[("b", Val.VInt 2)], [], []⟩ : Diff Val)) "b" =
      Dict.lookup [("a", Val.VInt 1), ("b", Val.VInt 2)] "b" ∧
    Dict.containsKey
      ((⟨[("b", Val.VInt 2)], [], []⟩ : Diff Val).added) "b" =
      (Dict.containsKey [("a", Val.VInt 1), ("b", Val.VInt 2)] "b" &&
        !(Dict.containsKey [("a", Val.VInt 1)] "b")) := by
  have h := changeLog_diff_partitions_and_replays demoCalls 0
    ⟨1, [("a", Val.VInt 1)], "x", "s1"⟩
    ⟨2, [("a", Val.VInt 1), ("b", Val.VInt 2)], "y", "s2"⟩
    ⟨2, "y", ⟨[("b", Val.VInt 2)], [], []⟩, "s2"⟩
    (by decide) (by decide) (by decide)
  exact ⟨h.2.2 "b", (h.1 "b").1⟩

theorem validateStoryConsistency_inv (cur prop : Dict Val)
    (r : SCValidation) (h : validateStoryConsistency cur prop = some r) :
    ∃ hc pc, healthConflicts cur prop = some hc ∧
      progressConflicts cur prop = some pc ∧
      r = ⟨(hc ++ pc).isEmpty, hc ++ pc, locationWarnings cur prop,
        "communication_hub"⟩ := by
  unfold validateStoryConsistency at h
  cases hh : healthConflicts cur prop with
  | none => rw [hh] at h; simp at h
  | some hc =>
    cases hp : progressConflicts cur prop with
    | none => rw [hh, hp] at h; simp at h
    | some pc =>
      rw [hh, hp] at h
      simp only [Option.some_inj] at h
      exact ⟨hc, pc, rfl, rfl, h.symm⟩

theorem healthConflicts_mem (cur prop : Dict Val) (hc : List String)
    (h : healthConflicts cur prop = some hc) :
    ∀ x ∈ hc, x = "Excessive health increase without explanation" ∨
      x = "Player health cannot be negative" := by
  unfold healthConflicts at h
  split at h
  · simp only [Option.some_inj] at h
    subst h
    intro x hx
    simp at hx
  · split at h
    · simp at h
    · split at h
      · simp only [Option.some_inj] at h
        subst h
        intro x hx
        rcases List.mem_append.mp hx with h1 | h1
        · split at h1
          · simp at h1
            left
            exact h1
          · simp at h1
        · split at h1
          · simp at h1
            right
            exact h1
          · simp at h1
      · simp at h

theorem progressConflicts_mem (cur prop : Dict Val) (pc : List String)
    (h : progressConflicts cur prop = some pc) :
    ∀ x ∈ pc, x = "Story progress cannot go backwards" := by
  unfold progressConflicts at h
  split at h
  · simp only [Option.some_inj] at h
    subst h
    intro x hx
    simp at hx
  · split at h
    · simp at h
    · simp only [Option.some_inj] at h
      subst h
      intro x hx
      split at hx
      · simp at hx
        exact hx
      · simp at hx

/-- C5: `validate_story_consistency(proposed, agent)` returns
`is_valid` true iff no conflicts were found (warnings alone never
invalidate); a proposed player_health more than 50 above the current
value yields a conflict, a negative proposed player_health yields a
conflict, a proposed story_progress below the current value yields the
conflict "Story progress cannot go backwards", and a proposed
current_location equal to the current location yields a warning, not a
conflict. -/
theorem validateStoryConsistency_semantics :
    (∀ (cur prop : Dict Val) (r : SCValidation),
      validateStoryConsistency cur prop = some r →
      (r.is_valid = true ↔ r.conflicts = [])) ∧
    (∀ (cur prop : Dict Val) (r : SCValidation) (curH newH : Int),
      validateStoryConsistency cur prop = some r →
      Dict.lookup prop "player_health" = some (Val.VInt newH) →
      Dict.getD cur "player_health" (Val.VInt 100) = Val.VInt curH →
      curH + 50 < newH →
      "Excessive health increase without explanation" ∈ r.conflicts) ∧
    (∀ (cur prop : Dict Val) (r : SCValidation) (curH newH : Int),
      validateStoryConsistency cur prop = some r →
      Dict.lookup prop "player_health" = some (Val.VInt newH) →
      Dict.getD cur "player_health" (Val.VInt 100) = Val.VInt curH →
      newH < 0 →
      "Player health cannot be negative" ∈ r.conflicts) ∧
    (∀ (cur prop : Dict Val) (r : SCValidation) (curP newP : Int),
      validateStoryConsistency cur prop = some r →
      Dict.lookup prop "story_progress" = some (Val.VInt newP) →
      Dict.getD cur "story_progress" (Val.VInt 0) = Val.VInt curP →
      newP < curP →
      "Story progress cannot go backwards" ∈ r.conflicts) ∧
    (∀ (cur prop : Dict Val) (r : SCValidation) (loc : Val),
      validateStoryConsistency cur prop = some r →
      Dict.lookup prop "current_location" = some loc →
      Dict.getD cur "current_location" (Val.VStr "") = loc →
      ("Location change to same location" ∈ r.warnings ∧
        "Location change to same location" ∉ r.conflicts)) := by
  refine ⟨?_, ?_, ?_, ?_, ?_⟩
  · intro cur prop r h
    obtain ⟨hc, pc, hh, hp, rfl⟩ := validateStoryConsistency_inv cur prop r h
    show (hc ++ pc).isEmpty = true ↔ hc ++ pc = []
    cases hc ++ pc <;> simp [List.isEmpty]
  · intro cur prop r curH newH h hlook hcur hgt
    have hhc : healthConflicts cur prop =
        some (["Excessive health increase without explanation"] ++
          (if newH < 0 then ["Player health cannot be negative"]
           else [])) := by
      unfold healthConflicts
      rw [hlook, hcur]
      simp [pyAddInt, pyGt, pyLt, hgt]
    obtain ⟨hc, pc, hh, hp, rfl⟩ := validateStoryConsistency_inv cur prop r h
    rw [hh] at hhc
    obtain rfl := Option.some_inj.mp hhc
    show _ ∈ _ ++ pc
    simp
  · intro cur prop r curH newH h hlook hcur hneg
    have hhc : healthConflicts cur prop =
        some ((if curH + 50 < newH then
            ["Excessive health increase without explanation"] else []) ++
          ["Player health cannot be negative"]) := by
      unfold healthConflicts
      rw [hlook, hcur]
      simp [pyAddInt, pyGt, pyLt, hneg]
    obtain ⟨hc, pc, hh, hp, rfl⟩ := validateStoryConsistency_inv cur prop r h
    rw [hh] at hhc
    obtain rfl := Option.some_inj.mp hhc
    show _ ∈ _ ++ pc
    simp
  · intro cur prop r curP newP h hlook hcur hlt
    have hpc : progressConflicts cur prop =
        some ["Story progress cannot go backwards"] := by
      unfold progressConflicts
      rw [hlook, hcur]
      simp [pyLt, hlt]
    obtain ⟨hc, pc, hh, hp, rfl⟩ := validateStoryConsistency_inv cur prop r h
    rw [hp] at hpc
    obtain rfl := Option.some_inj.mp hpc
    show _ ∈ hc ++ _
    simp
  · intro cur prop r loc h hlook hloc
    have hwarn : locationWarnings cur prop =
        ["Location change to same location"] := by
      unfold locationWarnings
      rw [hlook, hloc]
      simp
    obtain ⟨hc, pc, hh, hp, rfl⟩ := validateStoryConsistency_inv cur prop r h
    constructor
    · show _ ∈ locationWarnings cur prop
      rw [hwarn]
      simp
    · show _ ∉ hc ++ pc
      intro hmem
      rcases List.mem_append.mp hmem with h1 | h1
      · rcases healthConflicts_mem cur prop hc hh _ h1 with h2 | h2 <;>
          exact absurd h2 (by decide)
      · exact absurd (progressConflicts_mem cur prop pc hp _ h1) (by decide)

/-- Witness for C5, on the three spec scenarios: excessive healing
(50 to 120), progress regression (40 to 30), and a same-location change
producing a warning with a valid result. -/
theorem validateStoryConsistency_semantics_witness :
    "Excessive health increase without explanation" ∈
      (SCValidation.mk false
        ["Excessive health increase without explanation"] []
        "communication_hub").conflicts ∧
    "Story progress cannot go backwards" ∈
      (SCValidation.mk false ["Story progress cannot go backwards"] []
        "communication_hub").conflicts ∧
    ("Location change to same location" ∈
        (SCValidation.mk true [] ["Location change to same location"]
          "communication_hub").warnings ∧
      "Location change to same location" ∉
        (SCValidation.mk true [] ["Location change to same location"]
          "communication_hub").conflicts) ∧
    ((SCValidation.mk true [] ["Location change to same location"]
        "communication_hub").is_valid = true ↔
      (SCValidation.mk true [] ["Location change to same location"]
        "communication_hub").conflicts = []) := by
  refine ⟨?_, ?_, ?_, ?_⟩
  · exact validateStoryConsistency_semantics.2.1
      [("player_health", Val.VInt 50)] [("player_health", Val.VInt 120)]
      _ 50 120 rfl rfl rfl (by decide)
  · exact validateStoryConsistency_semantics.2.2.2.1
      [("story_progress", Val.VInt 40)] [("story_progress", Val.VInt 30)]
      _ 40 30 rfl rfl rfl (by decide)
  · exact validateStoryConsistency_semantics.2.2.2.2
      [("current_location", Val.VStr "Forest")]
      [("current_location", Val.VStr "Forest")]
      _ (Val.VStr "Forest") rfl rfl rfl
  · exact validateStoryConsistency_semantics.1
      [("current_location", Val.VStr "Forest")]
      [("current_location", Val.VStr "Forest")]
      _ rfl

theorem runRules_eq (rules : List ConsistencyRule) (ctx : Dict Val)
    (viols : List (String × String)) (h : runRules rules ctx = some viols) :
    viols = (rules.filter (fun r => r.check ctx == some false)).map
      (fun r => (r.name, r.message)) := by
  induction rules generalizing viols with
  | nil =>
    unfold runRules at h
    obtain rfl := Option.some_inj.mp h
    simp
  | cons r rs ih =>
    unfold runRules at h
    cases hcheck : r.check ctx with
    | none => rw [hcheck] at h; simp at h
    | some ok =>
      rw [hcheck] at h
      cases hrest : runRules rs ctx with
      | none => rw [hrest] at h; simp at h
      | some rest =>
        rw [hrest] at h
        simp only [Option.some_inj] at h
        subst h
        rw [List.filter_cons]
        cases ok
        · simp [hcheck, ih rest hrest]
        · simp [hcheck, ih rest hrest]

/-- A current context satisfying all three default rules. -/
def twoViolationCurrent : Dict Val :=
  [("player_name", Val.VStr "Hero"), ("current_location", Val.VStr "Forest"),
   ("player_health", Val.VInt 100), ("story_progress", Val.VInt 10)]

/-- A proposal whose merge violates health_bounds and progress_monotonic
but not required_fields. -/
def twoViolationProposed : Dict Val :=
  [("player_health", Val.VInt 150), ("story_progress", Val.VInt (-5))]

/-- C6: `validate_changes(proposed)` evaluates every registered
predicate against the candidate `current ∪ proposed` (proposed wins on
key collision) without committing anything, and collects one violation
per failed predicate with no short-circuiting; with the three default
rules, a proposed context violating exactly 2 of them yields exactly 2
violations and `is_valid` false. -/
theorem validateChanges_runs_all_rules :
    (∀ (cur prop : Dict Val) (res : VCResult),
      validateChanges cur prop = some res →
      (res.is_valid = true ↔ res.violations = []) ∧
      res.violations =
        (defaultRules.filter
          (fun r => r.check (cur.update prop) == some false)).map
          (fun r => (r.name, r.message))) ∧
    validateChanges twoViolationCurrent twoViolationProposed =
      some ⟨false,
        [("health_bounds", "Player health must be between 0 and 100"),
         ("progress_monotonic", "Story progress cannot be negative")]⟩ := by
  constructor
  · intro cur prop res h
    unfold validateChanges at h
    cases hrun : runRules defaultRules (cur.update prop) with
    | none => rw [hrun] at h; simp at h
    | some viols =>
      rw [hrun] at h
      simp only [Option.some_inj] at h
      subst h
      constructor
      · show viols.isEmpty = true ↔ viols = []
        cases viols <;> simp [List.isEmpty]
      · exact runRules_eq defaultRules _ viols hrun
  · rfl

/-- Witness for C6: the general characterization applied to the
concrete two-violation scenario. -/
theorem validateChanges_runs_all_rules_witness :
    ((VCResult.mk false
        [("health_bounds", "Player health must be between 0 and 100"),
         ("progress_monotonic",
          "Story progress cannot be negative")]).is_valid = true ↔
      (VCResult.mk false
        [("health_bounds", "Player health must be between 0 and 100"),
         ("progress_monotonic",
          "Story progress cannot be negative")]).violations = []) ∧
    (VCResult.mk false
      [("health_bounds", "Player health must be between 0 and 100"),
       ("progress_monotonic",
        "Story progress cannot be negative")]).violations =
      (defaultRules.filter
        (fun r => r.check
          (twoViolationCurrent.update twoViolationProposed) ==
            some false)).map (fun r => (r.name, r.message)) :=
  validateChanges_runs_all_rules.1 twoViolationCurrent
    twoViolationProposed _ rfl

/-- The bucketing predicate of one conflict: true when the conflict ends
up unresolved (no registered resolver for its type tag, or the resolver
raises). -/
def staysUnresolved (resolvers : List (Val × ConflictResolver))
    (c : Dict Val) : Bool :=
  match lookupResolver resolvers (c.getD "type" (Val.VStr "unknown")) with
  | none => true
  | some f =>
    match f c with
    | ResolveOutcome.ok _ => false
    | ResolveOutcome.raised _ => true

/-- Resolver table with two registered types: one succeeding, one
throwing. -/
def demoResolvers : List (Val × ConflictResolver) :=
  [(Val.VStr "t1", fun _ => ResolveOutcome.ok (Val.VStr "fixed")),
   (Val.VStr "t2", fun _ => ResolveOutcome.raised "boom")]

/-- Five conflicts: types t1 (resolver succeeds), t2 (resolver throws),
t3 and t4 (no resolver), and one with no type tag at all (defaults to
"unknown", no resolver). -/
def demoConflicts : List (Dict Val) :=
  [[("type", Val.VStr "t1")], [("type", Val.VStr "t2")],
   [("type", Val.VStr "t3")], [("type", Val.VStr "t4")], []]

/-- C8: `resolve_conflicts(conflicts)` places every input conflict in
exactly one of the two output buckets: a conflict with no registered
resolver for its type stays unresolved, a conflict whose resolver raises
stays unresolved, and only a conflict whose resolver returns normally
contributes a resolution; on 5 conflicts where 2 types have resolvers
(1 succeeding, 1 throwing) and 3 have none, the result is exactly 1
resolved and 4 unresolved. -/
theorem resolveConflicts_buckets :
    (∀ (resolvers : List (Val × ConflictResolver))
        (conflicts : List (Dict Val)),
      (resolveConflicts resolvers conflicts).resolved.length +
        (resolveConflicts resolvers conflicts).unresolved.length =
        conflicts.length ∧
      (resolveConflicts resolvers conflicts).unresolved =
        conflicts.filter (staysUnresolved resolvers)) ∧
    (resolveConflicts demoResolvers demoConflicts).resolved.length = 1 ∧
    (resolveConflicts demoResolvers demoConflicts).unresolved.length = 4 := by
  refine ⟨?_, rfl, rfl⟩
  intro resolvers conflicts
  induction conflicts with
  | nil => exact ⟨rfl, rfl⟩
  | cons c cs ih =>
    have h1 := ih.1
    have h2 := ih.2
    unfold resolveConflicts
    rw [List.filter_cons]
    cases hl : lookupResolver resolvers (c.getD "type" (Val.VStr "unknown")) with
    | none =>
      have hs : staysUnresolved resolvers c = true := by
        unfold staysUnresolved
        rw [hl]
      rw [hs]
      rw [h2] at h1
      constructor <;> simp [h2] <;> omega
    | some f =>
      cases hf : f c with
      | ok res =>
        have hs : staysUnresolved resolvers c = false := by
          unfold staysUnresolved
          rw [hl]
          simp [hf]
        rw [hs]
        rw [h2] at h1
        constructor <;> simp [h2, hf] <;> omega
      | raised msg =>
        have hs : staysUnresolved resolvers c = true := by
          unfold staysUnresolved
          rw [hl]
          simp [hf]
        rw [hs]
        rw [h2] at h1
        constructor <;> simp [h2, hf] <;> omega

/-- A hub with two registered agents. -/
def broadcastDemoHub : Hub := registerAgent (registerAgent emptyHub "alice") "bob"

/-- A broadcast message sent by a registered agent. -/
def broadcastDemoMsg : AgentMessage :=
  ⟨"alice", "broadcast", MessageType.storyUpdate, [], Priority.medium,
   false, false⟩

/-- Counterexample to C1 as stated: after alice retrieves the queued
broadcast message, the message is marked processed in the queue and
bob's subsequent `get_messages_for_agent` call returns nothing — the
source marks every returned message processed, broadcast included. -/
theorem broadcast_at_most_once_counterexample :
    (getMessagesForAgent (sendMessage broadcastDemoHub broadcastDemoMsg).1
        "alice" none).2.length = 1 ∧
    ((getMessagesForAgent (sendMessage broadcastDemoHub broadcastDemoMsg).1
        "alice" none).1.messageQueue.map AgentMessage.processed) = [true] ∧
    (getMessagesForAgent
        (getMessagesForAgent (sendMessage broadcastDemoHub broadcastDemoMsg).1
          "alice" none).1 "bob" none).2 = [] := by
  decide

/-- C1 (amended): `get_messages_for_agent` marks every message it
returns as processed, broadcast messages included; consequently a
broadcast message retrieved by one agent is not returned by any
subsequent `get_messages_for_agent` call of any agent — broadcast
delivery is at most once across all pollers, not at-least-once per
poller. -/
theorem getMessages_marks_broadcast_processed (hub : Hub) (a b : String)
    (ts1 ts2 : Option (List MessageType)) (i : Nat)
    (h : i < hub.messageQueue.length)
    (hsel : selectsFor a ts1 (hub.messageQueue.get ⟨i, h⟩) = true) :
    ((getMessagesForAgent hub a ts1).1.messageQueue[i]?).map
        (fun m => (m.processed, selectsFor b ts2 m)) = some (true, false) := by
  have hq : (getMessagesForAgent hub a ts1).1.messageQueue =
      hub.messageQueue.map
        (fun m => if selectsFor a ts1 m then markProcessed m else m) := rfl
  rw [hq]
  rw [List.getElem?_map]
  rw [List.getElem?_eq_getElem h]
  have hg : hub.messageQueue[i] = hub.messageQueue.get ⟨i, h⟩ := rfl
  simp only [Option.map_some', hg, if_pos hsel]
  simp [markProcessed, selectsFor]

/-- Witness for the amended C1: alice retrieves the broadcast message at
queue position 0; in the resulting hub that position is processed and no
longer selectable for bob. -/
theorem getMessages_marks_broadcast_processed_witness :
    ((getMessagesForAgent (sendMessage broadcastDemoHub broadcastDemoMsg).1
        "alice" none).1.messageQueue[0]?).map
        (fun m => (m.processed, selectsFor "bob" none m)) =
      some (true, false) :=
  getMessages_marks_broadcast_processed
    (sendMessage broadcastDemoHub broadcastDemoMsg).1 "alice" "bob"
    none none 0 (by decide) (by decide)

/-- A hub with the three registered agents of the conversation
scenario. -/
def convDemoHub : Hub :=
  registerAgent (registerAgent (registerAgent emptyHub "A") "B") "C"

/-- C2, evaluated at the claim's own input: with A, B, C registered,
`start_conversation("A", ["A","B","C"], "topic")` creates the
conversation but queues zero messages, because every invite is built
with sender "communication_hub", which `send_message` rejects as an
unknown sender (third conjunct): the fan-out silently fails. -/
theorem startConversation_queues_no_invites :
    (startConversation convDemoHub "A" ["A", "B", "C"] "topic"
        "conv1").1.messageQueue = [] ∧
    Dict.containsKey
      ((startConversation convDemoHub "A" ["A", "B", "C"] "topic"
        "conv1").1.activeConversations) "conv1" = true ∧
    (sendMessage convDemoHub
      ⟨"communication_hub", "B", MessageType.collaborationRequest,
       [("conversation_id", Val.VStr "conv1"), ("initiator", Val.VStr "A"),
        ("topic", Val.VStr "topic")], Priority.high, false, false⟩).2 =
      false := by
  decide
